import Mathlib

set_option maxRecDepth 100000

/-!
Verification development for the link-updating script (src/project.py).

The script walks a tree of Jupyter notebooks, scans markdown cells for
absolute links into the google-gemini/cookbook repository pinned to a fixed
revision, and rewrites them to relative paths, preserving archive links,
directory (tree) links and external links.

Lines of text are modelled as `List Char`; notebooks are modelled as a list
of cells, each carrying a cell type tag, a list of source lines, and an
opaque field standing for all remaining JSON keys of the cell object.  A
document that failed to read or to parse as JSON is modelled as `none`.

Regular-expression matching is embedded directly: every pattern used by the
script is a concrete anchored alternation, and each is translated into an
executable scanning function whose backtracking behaviour is spelled out at
the places where it matters (greedy character classes followed by a literal,
lazy dot-star in the link-text search).
-/

/-- Characters of a string literal. -/
def strL (s : String) : List Char := s.data

/-- The whitespace class of Python regular expressions (ASCII part), used by
the escape sequence backslash-s in the patterns of project.py. -/
def isSpacePy (c : Char) : Bool :=
  c == ' ' || c == '\t' || c == '\n' || c == '\r' || c == '\x0b' || c == '\x0c'

/-- The character class of the path portion of both link patterns
(project.py lines 60 and 137): every character except whitespace, a closing
parenthesis and a closing square bracket. -/
def isPathChar (c : Char) : Bool :=
  !isSpacePy c && !(c == ')') && !(c == ']')

/-- The lowercase hexadecimal class of the commit-hash alternative in
github_link_pattern (project.py line 60). -/
def isHexL (c : Char) : Bool :=
  (decide ('0' ≤ c) && decide (c ≤ '9')) || (decide ('a' ≤ c) && decide (c ≤ 'f'))

/-- List-level prefix test (the anchored part of each pattern). -/
def startsWithL : List Char → List Char → Bool
  | [], _ => true
  | _ :: _, [] => false
  | p :: ps, c :: cs => p == c && startsWithL ps cs

/-- Python substring containment, as in the expressions of the form
quoted-text in line (project.py lines 64, 74, 88). -/
def containsSub : List Char → List Char → Bool
  | [], pat => pat.isEmpty
  | c :: t, pat => startsWithL pat (c :: t) || containsSub t pat

/-- Python string repetition followed by concatenation, as in the
expression multiplying the up-level marker by levels_up (project.py line 36). -/
def joinReplicate (n : Nat) (s : List Char) : List Char :=
  (List.replicate n s).flatten

/-- Python str.split on a one-character separator: splits at every
occurrence, keeping empty parts, and yields one (possibly empty) part even
for the empty string (project.py line 35). -/
def pySplit (sep : Char) : List Char → List (List Char)
  | [] => [[]]
  | c :: t =>
    if c == sep then [] :: pySplit sep t
    else
      match pySplit sep t with
      | h :: r => (c :: h) :: r
      | [] => [[c]]

/-- posixpath.dirname as used at project.py line 30: everything before the
last slash, with trailing slashes stripped unless the head is all slashes. -/
def pyDirname (p : List Char) : List Char :=
  let afterLen := (p.reverse.takeWhile (fun c => !(c == '/'))).length
  if afterLen == p.length then []
  else
    let head := p.take (p.length - afterLen)
    if !head.isEmpty && !(head.all (fun c => c == '/')) then
      (head.reverse.dropWhile (fun c => c == '/')).reverse
    else head

/-- Python str.strip with no argument: remove leading and trailing
whitespace (project.py line 143). -/
def pyStrip (l : List Char) : List Char :=
  ((l.dropWhile isSpacePy).reverse.dropWhile isSpacePy).reverse

/-!
The substitution at project.py line 27 removes every non-overlapping
leftmost-shortest match of the pattern lazy-dot-star "/blob/" nonempty-run
"/" from the full URL.  Because the pattern begins with a lazy dot-star, a
match (when one exists) always begins at the current scan position and ends
just after the first completable "/blob/" occurrence: the greedy class that
excludes slashes takes the maximal run after "/blob/", and the following
literal slash is then the run terminator, so backtracking inside the run can
never succeed at another position.
-/

/-- One attempted match of "/blob/" nonempty-slash-free-run "/" at the head
of the list, returning the remainder after the match. -/
def blobMatchAt (l : List Char) : Option (List Char) :=
  if startsWithL (strL "/blob/") l then
    let u := l.drop 6
    let run := u.takeWhile (fun c => !(c == '/'))
    if run.isEmpty then none
    else
      match u.dropWhile (fun c => !(c == '/')) with
      | c :: r => if c == '/' then some r else none
      | [] => none
  else none

/-- Remainder after the first (leftmost-shortest) match of the stripping
pattern of project.py line 27, or none when the pattern does not occur. -/
def stripOnce : List Char → Option (List Char)
  | [] => none
  | c :: t =>
    match blobMatchAt (c :: t) with
    | some r => some r
    | none => stripOnce t

/-- Fueled iteration of stripOnce; each successful strip removes at least
eight characters, so fuel equal to the length always suffices. -/
def stripGo : Nat → List Char → List Char
  | 0, l => l
  | n + 1, l =>
    match stripOnce l with
    | some r => stripGo n r
    | none => l

/-- The effect of re.sub at project.py line 27: every non-overlapping
leftmost-shortest match of the stripping pattern is deleted. -/
def stripAll (l : List Char) : List Char := stripGo l.length l

/-- convert_to_relative_path (project.py lines 24 to 40): strip the URL up
to the revision segment, then prepend one up-level marker per path segment
of the directory containing the notebook, or a dot-slash at the root. -/
def convert_to_relative_path (full nbPath : List Char) : List Char :=
  let repoPath := stripAll full
  let nbDir := pyDirname nbPath
  if !nbDir.isEmpty then
    let levels := (pySplit '/' nbDir).length
    (if levels > 0 then joinReplicate levels (strL "../") else strL "./") ++ repoPath
  else strL "./" ++ repoPath

/-- The fixed prefix of github_link_pattern (project.py line 60) and of the
scan pattern (project.py line 137). -/
def ghAnchor : List Char := strL "https://github.com/google-gemini/cookbook/blob/"

/-- The fixed prefix of folder_link_pattern (project.py line 61). -/
def treeAnchor : List Char := strL "https://github.com/google-gemini/cookbook/tree/"

/-- The three literal branch alternatives of the revision group of
github_link_pattern, each of which must be followed by a slash. -/
def matchRevLit (t : List Char) : Option (List Char × List Char) :=
  if startsWithL (strL "main/") t then some (strL "main", t.drop 5)
  else if startsWithL (strL "master/") t then some (strL "master", t.drop 7)
  else if startsWithL (strL "old/") t then some (strL "old", t.drop 4)
  else none

/-- The revision group of github_link_pattern followed by its slash: a
greedy run of seven to forty lowercase hexadecimal characters followed by a
slash, or one of the three literal branch names followed by a slash.
Backtracking inside the greedy hexadecimal run can only stop at a character
of the run, which is never a slash, so the run must be the maximal one. -/
def matchRev (t : List Char) : Option (List Char × List Char) :=
  let run := t.takeWhile isHexL
  if 7 ≤ run.length ∧ run.length ≤ 40 then
    match t.dropWhile isHexL with
    | c :: r => if c == '/' then some (run, r) else matchRevLit t
    | [] => matchRevLit t
  else matchRevLit t

/-- One attempted match of github_link_pattern (project.py line 60) at the
head of the list: the anchor, a revision with its slash, then the greedy and
possibly empty path run.  Returns the full matched URL and the remainder. -/
def matchAt (l : List Char) : Option (List Char × List Char) :=
  if startsWithL ghAnchor l then
    let t := l.drop ghAnchor.length
    match matchRev t with
    | some (rev, after) =>
      let path := after.takeWhile isPathChar
      let rest := after.dropWhile isPathChar
      some (ghAnchor ++ rev ++ '/' :: path, rest)
    | none => none
  else none

/-- The lazy text group of the link-text search at project.py line 90:
starting just after an opening bracket, collect the shortest run of
non-newline characters that is followed by a closing bracket, an opening
parenthesis, the URL and a closing parenthesis. -/
def findLinkInner (url : List Char) : List Char → Option (List Char)
  | [] => none
  | c :: t =>
    if startsWithL (']' :: '(' :: (url ++ [')'])) (c :: t) then some []
    else if c == '\n' then none
    else
      match findLinkInner url t with
      | some txt => some (c :: txt)
      | none => none

/-- re.search of the link-text pattern at project.py line 90: the leftmost
opening bracket from which the lazy text group can complete wins. -/
def findLinkText (url : List Char) : List Char → Option (List Char)
  | [] => none
  | c :: t =>
    if c == '[' then
      match findLinkInner url t with
      | some txt => some txt
      | none => findLinkText url t
    else findLinkText url t

/-- replace_github_link (project.py lines 79 to 96): the replacement
returned for one URL match, computed from the whole original line (the
closure variable line), the notebook path and the matched URL. -/
def replace_github_link (origLine fp full : List Char) : List Char :=
  let rel := convert_to_relative_path full fp
  if containsSub origLine (strL "[") && containsSub origLine (strL "](") then
    match findLinkText full origLine with
    | some txt => strL "[" ++ txt ++ strL "](" ++ rel ++ strL ")"
    | none => rel
  else rel

/-- The scan of re.sub at project.py line 99: at each position, either the
pattern matches and the replacement for the matched URL is emitted with
scanning resuming after the match, or the character is kept.  Each step
consumes at least one character, so fuel equal to the line length always
suffices. -/
def rsubGo (fp origLine : List Char) : Nat → List Char → List Char
  | 0, l => l
  | _ + 1, [] => []
  | f + 1, c :: t =>
    match matchAt (c :: t) with
    | some (full, rest) => replace_github_link origLine fp full ++ rsubGo fp origLine f rest
    | none => c :: rsubGo fp origLine f t

/-- re.sub of github_link_pattern with replace_github_link over one line
(project.py line 99). -/
def rsubLine (fp line : List Char) : List Char :=
  rsubGo fp line line.length line

/-- One attempted match of folder_link_pattern (project.py line 61) at the
head of the list: the tree anchor, then a nonempty run excluding slash and
whitespace, a slash, and a possibly empty path run (which always matches). -/
def folderMatchAt (l : List Char) : Bool :=
  startsWithL treeAnchor l &&
    (let u := l.drop treeAnchor.length
     let run := u.takeWhile (fun c => !(c == '/') && !isSpacePy c)
     !run.isEmpty &&
       (match u.dropWhile (fun c => !(c == '/') && !isSpacePy c) with
        | c :: _ => c == '/'
        | [] => false))

/-- re.search of folder_link_pattern over a line (project.py line 69). -/
def hasFolderLink : List Char → Bool
  | [] => false
  | c :: t => folderMatchAt (c :: t) || hasFolderLink t

/-- The per-line body of the rewriting loop (project.py lines 56 to 99):
the three exception checks in priority order, then the substitution. -/
def processLine (fp line : List Char) : List Char :=
  if containsSub line (strL "gemini-1.5-archive") then line
  else if hasFolderLink line then line
  else if containsSub line (strL "https://") && !containsSub line (strL "google-gemini/cookbook") then line
  else rsubLine fp line

/-- A cell of a parsed notebook: its type tag, its source lines, and an
opaque field standing for every other key of the cell object, which the
script never touches. -/
structure Cell where
  cell_type : List Char
  source : List (List Char)
  meta : List Char
deriving DecidableEq

/-- A parsed notebook: its cells and an opaque field standing for every
other top-level key, which the script never touches. -/
structure Notebook where
  cells : List Cell
  meta : List Char
deriving DecidableEq

/-- The per-cell step of update_links_in_notebook (project.py lines 49 to
109): non-markdown cells are skipped; for markdown cells every source line
runs through processLine, the source is replaced by the result, and the cell
is flagged as modified when any line changed. -/
def processCell (fp : List Char) (c : Cell) : Cell × Bool :=
  if c.cell_type == strL "markdown" then
    let ls := c.source.map (processLine fp)
    ({ c with source := ls }, ls != c.source)
  else (c, false)

/-- update_links_in_notebook (project.py lines 42 to 120).  The first
argument of the result is the returned Boolean; the second is the content
written back to the file, or none when nothing is written.  A document that
failed to read or parse (modelled as none) is caught by the exception
handler at line 117: the function returns false and writes nothing. -/
def update_links_in_notebook (fp : List Char) (parsed : Option Notebook)
    (dryRun : Bool) : Bool × Option Notebook :=
  match parsed with
  | none => (false, none)
  | some nb =>
    let rs := nb.cells.map (processCell fp)
    let modified := rs.any (fun r => r.2)
    let nb' : Notebook := { nb with cells := rs.map (fun r => r.1) }
    (modified, if modified && !dryRun then some nb' else none)

/-- One attempted match of the scan pattern (project.py line 137) at the
head of the list: the anchor, a nonempty revision run excluding slash and
whitespace, a slash, and a nonempty greedy path run.  Returns the matched
string and the remainder. -/
def matchScanAt (l : List Char) : Option (List Char × List Char) :=
  if startsWithL ghAnchor l then
    let t := l.drop ghAnchor.length
    let run := t.takeWhile (fun c => !(c == '/') && !isSpacePy c)
    if run.isEmpty then none
    else
      match t.dropWhile (fun c => !(c == '/') && !isSpacePy c) with
      | c :: r =>
        if c == '/' then
          let path := r.takeWhile isPathChar
          if path.isEmpty then none
          else some (ghAnchor ++ run ++ '/' :: path, r.drop path.length)
        else none
      | [] => none
  else none

/-- re.findall of the scan pattern over one line (project.py line 138):
non-overlapping matches collected left to right. -/
def scanGo : Nat → List Char → List (List Char)
  | 0, _ => []
  | _ + 1, [] => []
  | f + 1, c :: t =>
    match matchScanAt (c :: t) with
    | some (m, rest) => m :: scanGo f rest
    | none => scanGo f t

/-- All scan-pattern matches of one line (project.py line 138). -/
def scanFindAll (l : List Char) : List (List Char) :=
  scanGo l.length l

/-- One reported occurrence of scan_for_github_links (project.py lines 140
to 145). -/
structure ScanEntry where
  cellIdx : Nat
  lineIdx : Nat
  content : List Char
  links : List (List Char)
deriving DecidableEq

/-- The per-line loop of scan_for_github_links over the source lines of one
markdown cell, carrying the running line index. -/
def scanLines (ci : Nat) : Nat → List (List Char) → List ScanEntry
  | _, [] => []
  | n, l :: ls =>
    let ms := scanFindAll l
    if ms.isEmpty then scanLines ci (n + 1) ls
    else ⟨ci, n, pyStrip l, ms⟩ :: scanLines ci (n + 1) ls

/-- The per-cell step of scan_for_github_links (project.py lines 130 to
136): non-markdown cells contribute nothing. -/
def scanCell (ci : Nat) (c : Cell) : List ScanEntry :=
  if c.cell_type == strL "markdown" then scanLines ci 0 c.source else []

/-- The cell loop of scan_for_github_links, carrying the running cell
index. -/
def scanCells : Nat → List Cell → List ScanEntry
  | _, [] => []
  | n, c :: cs => scanCell n c ++ scanCells (n + 1) cs

/-- scan_for_github_links (project.py lines 122 to 150).  A document that
failed to read or parse (modelled as none) is caught by the handler at line
148 and yields the empty list. -/
def scan_for_github_links (parsed : Option Notebook) : List ScanEntry :=
  match parsed with
  | none => []
  | some nb => scanCells 0 nb.cells

/-- The disjunction of the three exception checks of the rewriting loop
(project.py lines 64, 69 and 74): a line on which any of them fires passes
through unchanged. -/
def lineExempt (line : List Char) : Bool :=
  containsSub line (strL "gemini-1.5-archive") || hasFolderLink line ||
    (containsSub line (strL "https://") && !containsSub line (strL "google-gemini/cookbook"))

/-- Whether github_link_pattern matches anywhere in the line. -/
def hasGithubMatch : List Char → Bool
  | [] => false
  | c :: t => (matchAt (c :: t)).isSome || hasGithubMatch t

/-- Whether the scan pattern matches anywhere in the line. -/
def hasScanMatch : List Char → Bool
  | [] => false
  | c :: t => (matchScanAt (c :: t)).isSome || hasScanMatch t

/-- A line carries a qualifying link candidate, in the sense of the
glossary of the specification, when no exception class fires on it and the
rewriting pattern matches somewhere in it. -/
def lineQualifying (line : List Char) : Bool :=
  !lineExempt line && hasGithubMatch line

/-- Every file write performed by a run of main (project.py lines 152 to
200) over the given parsed documents: the only file-writing statement in
the whole program is the json.dump inside update_links_in_notebook
(project.py line 113), reached once per document for which the rewriting
pass reports a modification; the scan phase and the logging write no
files. -/
def main_file_writes (docs : List (List Char × Option Notebook)) :
    List (List Char × Notebook) :=
  docs.filterMap (fun d =>
    match update_links_in_notebook d.1 d.2 false with
    | (_, some nb) => some (d.1, nb)
    | (_, none) => none)

/-- The all_links accumulator of main (project.py lines 162 to 166): each
document whose scan reports at least one entry, with its entries. -/
def main_scan_results (docs : List (List Char × Option Notebook)) :
    List (List Char × List ScanEntry) :=
  docs.filterMap (fun d =>
    let ls := scan_for_github_links d.2
    if ls.isEmpty then none else some (d.1, ls))

/-- The leading part of the spec sentence on relative prefixes, written
after the words of the specification: one up-level marker per path segment
of the containing directory of the document, or a dot-slash at the root. -/
def specRelMarks (nbPath : List Char) : List Char :=
  if pyDirname nbPath = [] then strL "./"
  else joinReplicate ((pySplit '/' (pyDirname nbPath)).length) (strL "../")

/-- The fixed part of the URL before the revision segment, split off for
the path-stripping proofs: everything up to and including the final slash
before the revision belongs to ghAnchor, whose last six characters are the
substring matched by the stripping pattern. -/
def ghAnchorHead : List Char := strL "https://github.com/google-gemini/cookbook"

/-! Concrete documents used by the claim theorems, witnesses and
counterexamples. -/

/-- A root-level notebook path. -/
def nbPathDemo : List Char := strL "nb.ipynb"

/-- A markdown link whose URL is a qualifying cookbook blob link. -/
def c1Line : List Char :=
  strL "[See guide](https://github.com/google-gemini/cookbook/blob/main/x/y.md)"

/-- What the rewriter actually produces for c1Line. -/
def c1OutLine : List Char := strL "[See guide]([See guide](./x/y.md))"

/-- A one-cell notebook holding c1Line. -/
def c1Nb : Notebook := ⟨[⟨strL "markdown", [c1Line], strL "m"⟩], strL "top"⟩

/-- A markdown link whose link text is itself a qualifying absolute URL. -/
def c6Line : List Char :=
  strL "[https://github.com/google-gemini/cookbook/blob/main/b.md](https://github.com/google-gemini/cookbook/blob/main/a.md)\n"

/-- A one-cell notebook holding c6Line. -/
def c6Nb : Notebook := ⟨[⟨strL "markdown", [c6Line], []⟩], []⟩

/-- A line containing the archive marker together with a substring matched
by the scan pattern. -/
def c2Line : List Char :=
  strL "gemini-1.5-archive https://github.com/google-gemini/cookbook/blob/main/x.md\n"

/-- A one-cell notebook holding c2Line. -/
def c2Nb : Notebook := ⟨[⟨strL "markdown", [c2Line], []⟩], []⟩

/-- A blob link whose revision token is neither hexadecimal nor one of the
three literal branch names: not a qualifying candidate for the rewriter,
yet matched by the broader scan pattern. -/
def c3Line : List Char :=
  strL "https://github.com/google-gemini/cookbook/blob/dev-branch/x.md\n"

/-- A one-cell notebook holding c3Line. -/
def c3Nb : Notebook := ⟨[⟨strL "markdown", [c3Line], []⟩], []⟩

/-- A qualifying URL whose path portion itself contains a further
"/blob/" segment. -/
def c4Url : List Char :=
  strL "https://github.com/google-gemini/cookbook/blob/main/examples/blob/data/f.md"

/-- A bare qualifying URL on a line of its own. -/
def c7Line : List Char :=
  strL "https://github.com/google-gemini/cookbook/blob/main/x/y.md\n"

/-- A one-cell notebook holding c7Line. -/
def c7Nb : Notebook := ⟨[⟨strL "markdown", [c7Line], []⟩], []⟩

/-- A one-document input for the driver model. -/
def c7Docs : List (List Char × Option Notebook) := [(strL "nb.ipynb", some c7Nb)]

/-- A notebook with no links at all: one markdown cell and one code cell. -/
def cleanNb : Notebook :=
  ⟨[⟨strL "markdown", [strL "Hello world\n"], []⟩,
    ⟨strL "code", [strL "print(1)\n"], []⟩], []⟩

/-- A code cell whose content would match every pattern if it were
inspected. -/
def codeCellDemo : Cell :=
  ⟨strL "code", [strL "https://github.com/google-gemini/cookbook/blob/main/x.md\n"], []⟩

/-! Claim theorems. -/

/-- Claim C1 (code bug): on the input line with a markdown link around a
qualifying URL, re.sub replaces only the URL span while replace_github_link
returns a full bracketed link, so the rewriter duplicates the bracketed
text instead of preserving it once: the output is the nested
"[See guide]([See guide](./x/y.md))", not "[See guide](./x/y.md)", and the
notebook is rewritten with the nested line. -/
theorem c1_markdown_text_duplicated :
    processLine nbPathDemo c1Line = c1OutLine ∧
    c1OutLine ≠ strL "[See guide](./x/y.md)" ∧
    update_links_in_notebook nbPathDemo (some c1Nb) false =
      (true, some ⟨[⟨strL "markdown", [c1OutLine], strL "m"⟩], strL "top"⟩) := by
  refine ⟨by decide, by decide, by decide⟩

/-- Claim C6 (code bug): the rewriter is not idempotent.  On a document
whose markdown link text is itself a qualifying absolute URL, the first
pass modifies and writes, and the second pass applied to the written
content modifies and writes again, because the link text copied from the
stale original line still contains an absolute URL. -/
theorem c6_second_pass_modifies_again :
    (update_links_in_notebook nbPathDemo (some c6Nb) false).1 = true ∧
    (update_links_in_notebook nbPathDemo
      (update_links_in_notebook nbPathDemo (some c6Nb) false).2 false).1 = true ∧
    (update_links_in_notebook nbPathDemo
      (update_links_in_notebook nbPathDemo (some c6Nb) false).2 false).2 ≠
      (update_links_in_notebook nbPathDemo (some c6Nb) false).2 := by
  refine ⟨by decide, by decide, by decide⟩

/-- Claim C2 counterexample: a line containing the archive marker together
with a revision-link substring is reported by the scanner, because
scan_for_github_links implements none of the exception classes. -/
theorem c2_archive_line_reported_by_scan :
    containsSub c2Line (strL "gemini-1.5-archive") = true ∧
    scan_for_github_links (some c2Nb) ≠ [] := by
  refine ⟨by decide, by decide⟩

/-- Claim C3 counterexample: a document whose only line carries no
qualifying candidate (its revision token is outside the accepted set, so
the rewriting pattern does not match) is a rewrite no-op yet is reported by
the scanner, whose pattern accepts any revision token. -/
theorem c3_nonqualifying_document_reported_by_scan :
    lineQualifying c3Line = false ∧
    update_links_in_notebook nbPathDemo (some c3Nb) false = (false, none) ∧
    scan_for_github_links (some c3Nb) ≠ [] := by
  refine ⟨by decide, by decide, by decide⟩

/-- Claim C4 counterexample: for a qualifying link whose path portion
itself contains a "/blob/" segment, the replacement path is not the portion
after the revision segment: the substitution strips through the later
"/blob/" segment as well. -/
theorem c4_path_with_blob_segment_overstripped :
    (matchAt c4Url).isSome = true ∧
    convert_to_relative_path c4Url nbPathDemo = strL "./f.md" ∧
    convert_to_relative_path c4Url nbPathDemo ≠ strL "./examples/blob/data/f.md" := by
  refine ⟨by decide, by decide, by decide⟩

/-- Claim C7 counterexample: on a run that does find links in scan mode,
the set of files written consists exactly of the modified notebooks; no
file named links_to_update.txt is produced. -/
theorem c7_no_summary_file_written :
    main_scan_results c7Docs ≠ [] ∧
    (main_file_writes c7Docs).map Prod.fst = [strL "nb.ipynb"] ∧
    ¬ strL "links_to_update.txt" ∈ (main_file_writes c7Docs).map Prod.fst := by
  refine ⟨by decide, by decide, by decide⟩

/-- Claim C10: a document whose read or parse failed yields the empty list
from scan_for_github_links, the very value produced for a well-formed
document with no matching links, so the two cases are indistinguishable
from the return value alone. -/
theorem c10_scan_failure_indistinguishable_from_clean :
    scan_for_github_links none = ([] : List ScanEntry) ∧
    scan_for_github_links (some cleanNb) = [] ∧
    scan_for_github_links none = scan_for_github_links (some cleanNb) := by
  refine ⟨by decide, by decide, by decide⟩

/-! Helper lemmas shared by the remaining claim theorems. -/

/-- A list is always a prefix of itself extended by anything. -/
theorem startsWithL_self_append (xs ys : List Char) :
    startsWithL xs (xs ++ ys) = true := by
  induction xs with
  | nil => rfl
  | cons a t ih => simp [startsWithL, ih]

/-- A failed prefix test that is decided inside the first list stays failed
after appending. -/
theorem startsWithL_append_false (pat a b : List Char)
    (h : startsWithL pat a = false) (hl : pat.length ≤ a.length) :
    startsWithL pat (a ++ b) = false := by
  induction pat generalizing a with
  | nil => simp [startsWithL] at h
  | cons p ps ih =>
    cases a with
    | nil => simp at hl
    | cons x xs =>
      simp only [List.cons_append, startsWithL] at h ⊢
      cases hpx : (p == x) with
      | false => simp [hpx]
      | true =>
        rw [hpx] at h
        simp only [Bool.true_and] at h ⊢
        exact ih xs h (by simpa using hl)

/-- Mapping a function that fixes every element of a list is the
identity. -/
theorem map_eq_self_of_fixed {α : Type} (f : α → α) :
    ∀ (l : List α), (∀ a ∈ l, f a = a) → l.map f = l := by
  intro l
  induction l with
  | nil => intro _; rfl
  | cons a t ih =>
    intro h
    simp only [List.map_cons, h a (by simp), ih (fun x hx => h x (by simp [hx]))]

/-- Claim C2 (amended): every line containing the archive marker, every
line on which the folder-link pattern matches, and every line containing an
absolute https link but no occurrence of the repository substring, passes
through the rewriting loop unaltered.  (The scanner is not covered: it
implements no exception class.) -/
theorem c2_exception_lines_unaltered (fp line : List Char)
    (h : containsSub line (strL "gemini-1.5-archive") = true ∨
      hasFolderLink line = true ∨
      (containsSub line (strL "https://") = true ∧
        containsSub line (strL "google-gemini/cookbook") = false)) :
    processLine fp line = line := by
  by_cases h1 : containsSub line (strL "gemini-1.5-archive") = true
  · simp [processLine, h1]
  by_cases h2 : hasFolderLink line = true
  · simp [processLine, h1, h2]
  rcases h with h | h | ⟨h3, h4⟩
  · exact absurd h h1
  · exact absurd h h2
  · simp [processLine, h1, h2, h3, h4]

/-- Claim C2 witness: the archive-marker line of the counterexample is left
unaltered by the rewriting loop. -/
theorem c2_exception_lines_unaltered_witness :
    processLine nbPathDemo c2Line = c2Line :=
  c2_exception_lines_unaltered nbPathDemo c2Line (Or.inl (by decide))

/-- Claim C9: a cell whose type tag is not the markdown tag is returned
unchanged with no modification flag by the rewriting pass, and contributes
no entries to the scan, regardless of its content. -/
theorem c9_non_markdown_cells_untouched (fp : List Char) (ci : Nat) (c : Cell)
    (h : c.cell_type ≠ strL "markdown") :
    processCell fp c = (c, false) ∧ scanCell ci c = [] := by
  constructor
  · simp [processCell, h]
  · simp [scanCell, h]

/-- Claim C9 witness: a code cell whose single line would match every
pattern is untouched by the rewriting pass and invisible to the scan. -/
theorem c9_non_markdown_cells_untouched_witness :
    processCell nbPathDemo codeCellDemo = (codeCellDemo, false) ∧
    scanCell 0 codeCellDemo = [] :=
  c9_non_markdown_cells_untouched nbPathDemo 0 codeCellDemo (by decide)

/-- Claim C8: a document whose read or parse failed (modelled as none)
makes update_links_in_notebook return false with no write, and the driver
loop is unaffected by its presence: the writes of a run containing the
failing document are exactly the writes of the run without it, so every
other document is still processed.  A write only ever carries the fully
processed in-memory notebook, which update_links_in_notebook builds before
the write. -/
theorem c8_parse_failure_skipped (fp : List Char) (dr : Bool)
    (d1 d2 : List (List Char × Option Notebook)) :
    update_links_in_notebook fp none dr = (false, none) ∧
    main_file_writes (d1 ++ (fp, none) :: d2) =
      main_file_writes d1 ++ main_file_writes d2 := by
  constructor
  · rfl
  · unfold main_file_writes
    rw [List.filterMap_append]
    simp [List.filterMap_cons, update_links_in_notebook]

/-- When the rewriting pattern matches nowhere in the line, the
substitution scan is the identity at every fuel. -/
theorem rsubGo_id_of_no_match (fp orig : List Char) :
    ∀ (f : Nat) (l : List Char), hasGithubMatch l = false → rsubGo fp orig f l = l := by
  intro f
  induction f with
  | zero => intro l _; rfl
  | succ n ih =>
    intro l h
    cases l with
    | nil => rfl
    | cons c t =>
      rw [hasGithubMatch, Bool.or_eq_false_iff] at h
      obtain ⟨h1, h2⟩ := h
      have hm : matchAt (c :: t) = none :=
        Option.not_isSome_iff_eq_none.mp (by simp [h1])
      rw [rsubGo, hm, ih t h2]

/-- A line with no qualifying candidate passes through the rewriting loop
unaltered: either an exception class fires, or the pattern matches nowhere
and the substitution is the identity. -/
theorem processLine_id_of_not_qualifying (fp line : List Char)
    (h : lineQualifying line = false) : processLine fp line = line := by
  by_cases h1 : containsSub line (strL "gemini-1.5-archive") = true
  · simp [processLine, h1]
  by_cases h2 : hasFolderLink line = true
  · simp [processLine, h1, h2]
  by_cases h3 : (containsSub line (strL "https://") &&
      !containsSub line (strL "google-gemini/cookbook")) = true
  · simp [processLine, h1, h2, h3]
  · have hex : lineExempt line = false := by
      rw [lineExempt, Bool.or_eq_false_iff, Bool.or_eq_false_iff]
      exact ⟨⟨Bool.eq_false_iff.mpr h1, Bool.eq_false_iff.mpr h2⟩,
        Bool.eq_false_iff.mpr h3⟩
    have hm : hasGithubMatch line = false := by
      rw [lineQualifying, hex] at h
      simpa using h
    simp only [processLine, h1, h2, h3, if_false, Bool.false_eq_true]
    exact rsubGo_id_of_no_match fp line line.length line hm

/-- A markdown cell all of whose lines carry no qualifying candidate is
returned unchanged with no modification flag. -/
theorem processCell_id_of_not_qualifying (fp : List Char) (c : Cell)
    (h : ∀ l ∈ c.source, lineQualifying l = false) :
    processCell fp c = (c, false) := by
  by_cases ht : c.cell_type == strL "markdown"
  · have hmap : c.source.map (processLine fp) = c.source :=
      map_eq_self_of_fixed _ _ (fun l hl => processLine_id_of_not_qualifying fp l (h l hl))
    simp [processCell, ht, hmap]
  · simp [processCell, ht]

/-- When the scan pattern matches nowhere in the line, the findall scan is
empty at every fuel. -/
theorem scanGo_nil_of_no_match :
    ∀ (f : Nat) (l : List Char), hasScanMatch l = false → scanGo f l = [] := by
  intro f
  induction f with
  | zero => intro l _; rfl
  | succ n ih =>
    intro l h
    cases l with
    | nil => rfl
    | cons c t =>
      rw [hasScanMatch, Bool.or_eq_false_iff] at h
      obtain ⟨h1, h2⟩ := h
      have hm : matchScanAt (c :: t) = none :=
        Option.not_isSome_iff_eq_none.mp (by simp [h1])
      rw [scanGo, hm]
      exact ih t h2

/-- The per-line scan loop yields nothing when no line has a scan-pattern
match, at every starting index. -/
theorem scanLines_nil_of_no_match (ci : Nat) :
    ∀ (src : List (List Char)) (n : Nat),
      (∀ l ∈ src, hasScanMatch l = false) → scanLines ci n src = [] := by
  intro src
  induction src with
  | nil => intro n _; rfl
  | cons l ls ih =>
    intro n h
    have h0 : scanFindAll l = [] :=
      scanGo_nil_of_no_match l.length l (h l (by simp))
    rw [scanLines]
    simp only [h0, List.isEmpty_nil, if_true]
    exact ih (n + 1) (fun x hx => h x (by simp [hx]))

/-- The cell loop of the scan yields nothing when no markdown line has a
scan-pattern match, at every starting index. -/
theorem scanCells_nil_of_no_match :
    ∀ (cs : List Cell) (n : Nat),
      (∀ c ∈ cs, c.cell_type = strL "markdown" → ∀ l ∈ c.source, hasScanMatch l = false) →
      scanCells n cs = [] := by
  intro cs
  induction cs with
  | nil => intro n _; rfl
  | cons c t ih =>
    intro n h
    rw [scanCells]
    have hc : scanCell n c = [] := by
      by_cases ht : c.cell_type == strL "markdown"
      · rw [scanCell, if_pos ht]
        exact scanLines_nil_of_no_match n c.source 0 (h c (by simp) (by simpa using ht))
      · rw [scanCell, if_neg ht]
    rw [hc]
    simp only [List.nil_append]
    exact ih (n + 1) (fun x hx => h x (by simp [hx]))

/-- The cells of a notebook all of whose markdown lines carry no qualifying
candidate map to themselves with no modification flag anywhere. -/
theorem cells_fixed_of_not_qualifying (fp : List Char) :
    ∀ (cs : List Cell),
      (∀ c ∈ cs, c.cell_type = strL "markdown" → ∀ l ∈ c.source, lineQualifying l = false) →
      (cs.map (processCell fp)).map (fun r => r.1) = cs ∧
      (cs.map (processCell fp)).any (fun r => r.2) = false := by
  intro cs
  induction cs with
  | nil => intro _; exact ⟨rfl, rfl⟩
  | cons c t ih =>
    intro h
    have hc : processCell fp c = (c, false) := by
      by_cases ht : c.cell_type == strL "markdown"
      · exact processCell_id_of_not_qualifying fp c (h c (by simp) (by simpa using ht))
      · simp [processCell, ht]
    obtain ⟨ih1, ih2⟩ := ih (fun x hx => h x (by simp [hx]))
    constructor
    · simp [hc, ih1]
    · simp [hc, ih2]

/-- Claim C3 (amended): a document with zero qualifying candidates in its
markdown cells is never rewritten: update_links_in_notebook returns false
and writes nothing.  The scan reports zero entries for the document exactly
under the stronger premise that no markdown line matches the broader scan
pattern, which accepts any revision token and implements no exception
class. -/
theorem c3_no_qualifying_no_rewrite_scan_empty (fp : List Char) (nb : Notebook) (dr : Bool)
    (h1 : ∀ c ∈ nb.cells, c.cell_type = strL "markdown" →
      ∀ l ∈ c.source, lineQualifying l = false)
    (h2 : ∀ c ∈ nb.cells, c.cell_type = strL "markdown" →
      ∀ l ∈ c.source, hasScanMatch l = false) :
    update_links_in_notebook fp (some nb) dr = (false, none) ∧
    scan_for_github_links (some nb) = [] := by
  constructor
  · obtain ⟨hfst, hany⟩ := cells_fixed_of_not_qualifying fp nb.cells h1
    simp [update_links_in_notebook, hany]
  · rw [scan_for_github_links]
    exact scanCells_nil_of_no_match nb.cells 0 h2

/-- Claim C3 witness: the clean demonstration notebook is a rewrite no-op
and is invisible to the scan. -/
theorem c3_no_qualifying_no_rewrite_scan_empty_witness :
    update_links_in_notebook nbPathDemo (some cleanNb) false = (false, none) ∧
    scan_for_github_links (some cleanNb) = [] :=
  c3_no_qualifying_no_rewrite_scan_empty nbPathDemo cleanNb false (by decide) (by decide)


/-- A slash-free word followed by a slash is a prefix of a slash-free token
followed by a slash exactly when the token equals the word. -/
theorem startsWith_lit_slash_iff (w : List Char) :
    ∀ (tok rest : List Char), (∀ c ∈ w, c ≠ '/') → (∀ c ∈ tok, c ≠ '/') →
      (startsWithL (w ++ ['/']) (tok ++ '/' :: rest) = true ↔ tok = w) := by
  induction w with
  | nil =>
    intro tok rest _ ht
    cases tok with
    | nil => simp [startsWithL]
    | cons c t =>
      have hc : ('/' == c) = false :=
        beq_eq_false_iff_ne.mpr (fun hh => ht c (by simp) hh.symm)
      simp [startsWithL, hc]
  | cons a w' ih =>
    intro tok rest hw ht
    cases tok with
    | nil =>
      have ha : (a == '/') = false :=
        beq_eq_false_iff_ne.mpr (hw a (by simp))
      simp [startsWithL, ha]
    | cons c t =>
      simp only [List.cons_append, startsWithL]
      by_cases hac : a = c
      · subst hac
        have hjoint := ih t rest (fun x hx => hw x (by simp [hx]))
          (fun x hx => ht x (by simp [hx]))
        simp [hjoint]
      · have hf : (a == c) = false := beq_eq_false_iff_ne.mpr hac
        simp only [hf, Bool.false_and, Bool.false_eq_true, false_iff, List.cons.injEq,
          not_and]
        intro hca
        exact absurd hca.symm hac

/-- The literal alternatives match a slash-terminated token exactly for the
three branch names. -/
theorem matchRevLit_isSome_iff (tok tail : List Char) (ht : ∀ c ∈ tok, c ≠ '/') :
    (matchRevLit (tok ++ '/' :: tail)).isSome = true ↔
      (tok = strL "main" ∨ tok = strL "master" ∨ tok = strL "old") := by
  have hmain := startsWith_lit_slash_iff (strL "main") tok tail (by decide) ht
  have hmaster := startsWith_lit_slash_iff (strL "master") tok tail (by decide) ht
  have hold := startsWith_lit_slash_iff (strL "old") tok tail (by decide) ht
  have e1 : strL "main/" = strL "main" ++ ['/'] := by decide
  have e2 : strL "master/" = strL "master" ++ ['/'] := by decide
  have e3 : strL "old/" = strL "old" ++ ['/'] := by decide
  unfold matchRevLit
  rw [e1, e2, e3]
  by_cases h1 : tok = strL "main"
  · rw [if_pos (hmain.mpr h1)]
    simp [h1]
  · rw [if_neg (fun hh => h1 (hmain.mp hh))]
    by_cases h2 : tok = strL "master"
    · rw [if_pos (hmaster.mpr h2)]
      simp [h1, h2]
    · rw [if_neg (fun hh => h2 (hmaster.mp hh))]
      by_cases h3 : tok = strL "old"
      · rw [if_pos (hold.mpr h3)]
        simp [h1, h2, h3]
      · rw [if_neg (fun hh => h3 (hold.mp hh))]
        simp [h1, h2, h3]

/-- A list whose elements do not all satisfy the predicate has a dropWhile
residue headed by a failing element of the list. -/
theorem exists_dropWhile_head (p : Char → Bool) :
    ∀ (l : List Char), l.all p = false →
      ∃ d ds, l.dropWhile p = d :: ds ∧ p d = false ∧ d ∈ l := by
  intro l
  induction l with
  | nil => intro h; simp at h
  | cons c t ih =>
    intro h
    by_cases hc : p c = true
    · rw [List.all_cons, hc, Bool.true_and] at h
      obtain ⟨d, ds, h1, h2, h3⟩ := ih h
      exact ⟨d, ds, by rw [List.dropWhile_cons, if_pos hc, h1], h2, by simp [h3]⟩
    · have hc' : p c = false := by simpa using hc
      exact ⟨c, t, by rw [List.dropWhile_cons, if_neg (by simp [hc'])], hc', by simp⟩

/-- When the scanned prefix already stops the predicate, appending does not
change the takeWhile value and the dropWhile value is extended by the
appended part. -/
theorem takeWhile_dropWhile_append_stop (p : Char → Bool) :
    ∀ (l X : List Char), l.dropWhile p ≠ [] →
      (l ++ X).takeWhile p = l.takeWhile p ∧
        (l ++ X).dropWhile p = l.dropWhile p ++ X := by
  intro l
  induction l with
  | nil => intro X h; simp at h
  | cons c t ih =>
    intro X h
    by_cases hc : p c = true
    · rw [List.dropWhile_cons, if_pos hc] at h
      obtain ⟨h1, h2⟩ := ih X h
      constructor
      · rw [List.cons_append, List.takeWhile_cons, if_pos hc, h1,
          List.takeWhile_cons, if_pos hc]
      · rw [List.cons_append, List.dropWhile_cons, if_pos hc, h2,
          List.dropWhile_cons, if_pos hc]
    · have hc' : p c = false := by simpa using hc
      constructor
      · rw [List.cons_append, List.takeWhile_cons, if_neg (by simp [hc']),
          List.takeWhile_cons, if_neg (by simp [hc'])]
      · rw [List.cons_append, List.dropWhile_cons, if_neg (by simp [hc']),
          List.dropWhile_cons, if_neg (by simp [hc']), List.cons_append]

/-- The revision group of the rewriting pattern accepts a slash-terminated
token exactly when it is one of the three literal branch names or a run of
seven to forty lowercase hexadecimal characters. -/
theorem matchRev_token_iff (tok tail : List Char) (ht : ∀ c ∈ tok, c ≠ '/') :
    (matchRev (tok ++ '/' :: tail)).isSome = true ↔
      (tok = strL "main" ∨ tok = strL "master" ∨ tok = strL "old" ∨
        (tok.all isHexL = true ∧ 7 ≤ tok.length ∧ tok.length ≤ 40)) := by
  by_cases hhex : tok.all isHexL = true
  · have hall : ∀ a ∈ tok, isHexL a = true := List.all_eq_true.mp hhex
    have hslash : isHexL '/' = false := by decide
    have hrun : (tok ++ '/' :: tail).takeWhile isHexL = tok := by
      rw [List.takeWhile_append_of_pos hall, List.takeWhile_cons, if_neg (by simp [hslash]),
        List.append_nil]
    have hdrop : (tok ++ '/' :: tail).dropWhile isHexL = '/' :: tail := by
      rw [List.dropWhile_append_of_pos hall, List.dropWhile_cons, if_neg (by simp [hslash])]
    unfold matchRev
    simp only [hrun, hdrop]
    by_cases hr : 7 ≤ tok.length ∧ tok.length ≤ 40
    · rw [if_pos hr]
      constructor
      · intro _
        exact Or.inr (Or.inr (Or.inr ⟨hhex, hr.1, hr.2⟩))
      · intro _
        rfl
    · rw [if_neg hr]
      rw [matchRevLit_isSome_iff tok tail ht]
      constructor
      · rintro (h | h | h)
        · exact Or.inl h
        · exact Or.inr (Or.inl h)
        · exact Or.inr (Or.inr (Or.inl h))
      · rintro (h | h | h | ⟨_, h7, h40⟩)
        · exact Or.inl h
        · exact Or.inr (Or.inl h)
        · exact Or.inr (Or.inr h)
        · exact absurd ⟨h7, h40⟩ hr
  · have hhex' : tok.all isHexL = false := by simpa using hhex
    obtain ⟨d, ds, hdd, hd, hmem⟩ := exists_dropWhile_head isHexL tok hhex'
    have hne : tok.dropWhile isHexL ≠ [] := by rw [hdd]; simp
    obtain ⟨htw, hdw⟩ := takeWhile_dropWhile_append_stop isHexL tok ('/' :: tail) hne
    have hd' : (d == '/') = false := beq_eq_false_iff_ne.mpr (ht d hmem)
    have hlit := matchRevLit_isSome_iff tok tail ht
    have hrest : (tok ++ '/' :: tail).dropWhile isHexL = d :: (ds ++ '/' :: tail) := by
      rw [hdw, hdd, List.cons_append]
    unfold matchRev
    simp only [htw, hrest]
    have hiff : ∀ o : Option (List Char × List Char), o = matchRevLit (tok ++ '/' :: tail) →
        (o.isSome = true ↔
          (tok = strL "main" ∨ tok = strL "master" ∨ tok = strL "old" ∨
            (tok.all isHexL = true ∧ 7 ≤ tok.length ∧ tok.length ≤ 40))) := by
      intro o ho
      rw [ho, hlit]
      constructor
      · rintro (h | h | h)
        · exact Or.inl h
        · exact Or.inr (Or.inl h)
        · exact Or.inr (Or.inr (Or.inl h))
      · rintro (h | h | h | ⟨hx, _, _⟩)
        · exact Or.inl h
        · exact Or.inr (Or.inl h)
        · exact Or.inr (Or.inr h)
        · exact absurd hx (by simp [hhex'])
    by_cases hr : 7 ≤ (tok.takeWhile isHexL).length ∧ (tok.takeWhile isHexL).length ≤ 40
    · rw [if_pos hr]
      simp only [hd', Bool.false_eq_true, if_false]
      exact hiff _ rfl
    · rw [if_neg hr]
      exact hiff _ rfl

/-- Stripping the anchor off a line that begins with it reduces the
rewriting pattern to its revision-and-path part. -/
theorem matchAt_anchor_isSome (rest : List Char) :
    (matchAt (ghAnchor ++ rest)).isSome = (matchRev rest).isSome := by
  unfold matchAt
  rw [startsWithL_self_append ghAnchor rest]
  simp only [if_true, List.drop_left]
  cases h : matchRev rest with
  | none => rfl
  | some p => cases p with | mk rev after => rfl

/-- Claim C5: a revision token (slash-free, here placed between the fixed
anchor and a slash-terminated path) is accepted by github_link_pattern, the
pattern variant that restricts revision tokens, exactly when it is a run of
seven to forty lowercase hexadecimal characters or one of the literal
tokens main, master, old; every other token, such as a branch name with
letters outside the hexadecimal alphabet, is rejected. -/
theorem c5_revision_token_acceptance (tok : List Char)
    (ht : ∀ c ∈ tok, c ≠ '/') :
    (matchAt (ghAnchor ++ (tok ++ '/' :: strL "x.md"))).isSome = true ↔
      (tok = strL "main" ∨ tok = strL "master" ∨ tok = strL "old" ∨
        (tok.all isHexL = true ∧ 7 ≤ tok.length ∧ tok.length ≤ 40)) := by
  rw [matchAt_anchor_isSome]
  exact matchRev_token_iff tok (strL "x.md") ht

/-- Claim C5 witness: an eight-character hexadecimal hash is accepted and a
hyphenated branch name is rejected by the rewriting pattern. -/
theorem c5_revision_token_acceptance_witness :
    (matchAt (ghAnchor ++ (strL "deadbeef" ++ '/' :: strL "x.md"))).isSome = true ∧
    (matchAt (ghAnchor ++ (strL "dev-branch" ++ '/' :: strL "x.md"))).isSome = false := by
  constructor
  · exact (c5_revision_token_acceptance (strL "deadbeef") (by decide)).mpr (by decide)
  · rw [Bool.eq_false_iff]
    intro hs
    exact absurd ((c5_revision_token_acceptance (strL "dev-branch") (by decide)).mp hs)
      (by decide)

/-- The stripping pattern has no match starting anywhere strictly inside
the anchor before its final "/blob/" segment. -/
theorem ghAnchor_no_early_blob :
    ∀ i, i < ghAnchorHead.length →
      startsWithL (strL "/blob/") (ghAnchor.drop i) = false := by decide

/-- A position at which "/blob/" does not even start contributes no match
of the stripping pattern. -/
theorem blobMatchAt_none_of_no_start (l : List Char)
    (h : startsWithL (strL "/blob/") l = false) : blobMatchAt l = none := by
  rw [blobMatchAt, h]
  rfl

/-- The first match of the stripping pattern skips over any prefix that
offers no match position. -/
theorem stripOnce_concat (pre rest : List Char)
    (h : ∀ i, i < pre.length → blobMatchAt (pre.drop i ++ rest) = none) :
    stripOnce (pre ++ rest) = stripOnce rest := by
  induction pre with
  | nil => simp
  | cons c t ih =>
    have h0 : blobMatchAt ((c :: t) ++ rest) = none := by
      have := h 0 (by simp)
      simpa using this
    rw [List.cons_append, stripOnce,
      show blobMatchAt (c :: (t ++ rest)) = none from by rw [← List.cons_append]; exact h0]
    exact ih (fun i hi => by
      have := h (i + 1) (by simpa using Nat.succ_lt_succ hi)
      simpa using this)

/-- At the final "/blob/" of the anchor the stripping pattern matches and
consumes exactly through the revision token and its slash. -/
theorem blobMatchAt_designated (rev p : List Char) (h1 : rev ≠ [])
    (h2 : ∀ c ∈ rev, c ≠ '/') :
    blobMatchAt (strL "/blob/" ++ (rev ++ '/' :: p)) = some p := by
  have hpos : ∀ a ∈ rev, (!(a == '/')) = true := by
    intro a ha
    simp [beq_eq_false_iff_ne.mpr (h2 a ha)]
  have hdrop6 : ∀ X : List Char, (strL "/blob/" ++ X).drop 6 = X := fun X =>
    List.drop_left' (by decide)
  have htw : (rev ++ '/' :: p).takeWhile (fun c => !(c == '/')) = rev := by
    rw [List.takeWhile_append_of_pos hpos, List.takeWhile_cons]
    simp
  have hdw : (rev ++ '/' :: p).dropWhile (fun c => !(c == '/')) = '/' :: p := by
    rw [List.dropWhile_append_of_pos hpos, List.dropWhile_cons]
    simp
  have hie : rev.isEmpty = false := by
    cases rev with
    | nil => exact absurd rfl h1
    | cons a t => rfl
  rw [blobMatchAt, startsWithL_self_append]
  simp only [if_true, hdrop6, htw, hdw, hie, Bool.false_eq_true, if_false]
  rfl

/-- Iterating the strip on a list with no match is the identity at every
fuel. -/
theorem stripGo_none (n : Nat) (l : List Char) (h : stripOnce l = none) :
    stripGo n l = l := by
  cases n with
  | zero => rfl
  | succ m => rw [stripGo, h]

/-- The stripping substitution on a well-formed cookbook URL removes
exactly the anchor and the revision segment, provided the remaining path
offers the pattern no further match. -/
theorem stripAll_url (rev p : List Char) (h1 : rev ≠ [])
    (h2 : ∀ c ∈ rev, c ≠ '/') (h3 : stripOnce p = none) :
    stripAll (ghAnchor ++ (rev ++ '/' :: p)) = p := by
  have hsplit : ghAnchor = ghAnchorHead ++ strL "/blob/" := by decide
  have hearly : ∀ i, i < ghAnchorHead.length →
      blobMatchAt (ghAnchorHead.drop i ++ (strL "/blob/" ++ (rev ++ '/' :: p))) = none := by
    intro i hi
    have hdec : startsWithL (strL "/blob/") (ghAnchor.drop i) = false :=
      ghAnchor_no_early_blob i hi
    have hsplit2 : ghAnchor.drop i = ghAnchorHead.drop i ++ strL "/blob/" := by
      rw [hsplit]
      exact List.drop_append_of_le_length (Nat.le_of_lt hi)
    have hlen : (strL "/blob/").length ≤ (ghAnchor.drop i).length := by
      rw [List.length_drop]
      have e1 : ghAnchor.length = 47 := by decide
      have e2 : (strL "/blob/").length = 6 := by decide
      have e3 : ghAnchorHead.length = 41 := by decide
      rw [e3] at hi
      omega
    have hfalse : startsWithL (strL "/blob/")
        ((ghAnchorHead.drop i ++ strL "/blob/") ++ (rev ++ '/' :: p)) = false := by
      rw [← hsplit2]
      exact startsWithL_append_false _ _ _ hdec hlen
    rw [← List.append_assoc]
    exact blobMatchAt_none_of_no_start _ hfalse
  have hfirst : stripOnce (ghAnchor ++ (rev ++ '/' :: p)) = some p := by
    rw [hsplit, List.append_assoc, stripOnce_concat ghAnchorHead _ hearly]
    have hb := blobMatchAt_designated rev p h1 h2
    rw [show strL "/blob/" ++ (rev ++ '/' :: p) =
      '/' :: (strL "blob/" ++ (rev ++ '/' :: p)) from rfl]
    rw [stripOnce,
      show blobMatchAt ('/' :: (strL "blob/" ++ (rev ++ '/' :: p))) = some p from hb]
  unfold stripAll
  cases hl : (ghAnchor ++ (rev ++ '/' :: p)).length with
  | zero =>
    exfalso
    have e1 : ghAnchor.length = 47 := by decide
    rw [List.length_append, e1] at hl
    omega
  | succ n =>
    rw [stripGo, hfirst]
    exact stripGo_none n p h3

/-- Python str.split never yields an empty list of parts. -/
theorem pySplit_ne_nil (sep : Char) (l : List Char) : pySplit sep l ≠ [] := by
  cases l with
  | nil => simp [pySplit]
  | cons c t =>
    unfold pySplit
    by_cases hc : (c == sep) = true
    · simp [hc]
    · have hc' : (c == sep) = false := by simpa using hc
      rcases hps : pySplit sep t with _ | ⟨h, r⟩ <;> simp [hc', hps]

/-- Claim C4 (amended): for a qualifying link written as the anchor, a
nonempty slash-free revision and a path that offers the stripping pattern
no further match, the replacement is the path prefixed by one up-level
marker per path segment of the containing directory of the document, or by
a dot-slash when the document sits at the root.  (The counterexample shows
the premise on the path is necessary: a path containing a further "/blob/"
segment is stripped beyond the revision.) -/
theorem c4_relative_path_construction (rev p nbPath : List Char)
    (h1 : rev ≠ []) (h2 : ∀ c ∈ rev, c ≠ '/') (h3 : stripOnce p = none) :
    convert_to_relative_path (ghAnchor ++ (rev ++ '/' :: p)) nbPath =
      specRelMarks nbPath ++ p := by
  have hstrip := stripAll_url rev p h1 h2 h3
  unfold convert_to_relative_path specRelMarks
  rw [hstrip]
  by_cases hd : pyDirname nbPath = []
  · simp [hd]
  · have hne : (pyDirname nbPath).isEmpty = false := by
      cases hcase : pyDirname nbPath with
      | nil => exact absurd hcase hd
      | cons a t => rfl
    have hpos : (pySplit '/' (pyDirname nbPath)).length > 0 :=
      List.length_pos.mpr (pySplit_ne_nil '/' _)
    simp [hd, hne, hpos]

/-- Claim C4 witness: a document two directories deep rewrites a main-branch
link to a path with exactly two up-level markers. -/
theorem c4_relative_path_construction_witness :
    convert_to_relative_path (ghAnchor ++ (strL "main" ++ '/' :: strL "docs/readme.md"))
      (strL "a/b/notebook.ipynb") = strL "../../docs/readme.md" := by
  rw [c4_relative_path_construction (strL "main") (strL "docs/readme.md")
    (strL "a/b/notebook.ipynb") (by decide) (by decide) (by decide)]
  decide

/-- Claim C7 (amended): a run of the driver writes files only at the input
notebook paths (the modified notebooks); it produces no separate summary
file, and in particular no file named links_to_update.txt: scan results are
reported through console logging alone. -/
theorem c7_writes_only_notebooks (docs : List (List Char × Option Notebook))
    (fp : List Char) (nb : Notebook) (h : (fp, nb) ∈ main_file_writes docs) :
    fp ∈ docs.map Prod.fst := by
  unfold main_file_writes at h
  rw [List.mem_filterMap] at h
  obtain ⟨d, hd, hfd⟩ := h
  cases hu : update_links_in_notebook d.1 d.2 false with
  | mk b w =>
    rw [hu] at hfd
    cases w with
    | none => simp at hfd
    | some nb' =>
      simp only [Option.some.injEq, Prod.mk.injEq] at hfd
      obtain ⟨h1, _⟩ := hfd
      rw [← h1]
      exact List.mem_map_of_mem Prod.fst hd

/-- Claim C7 witness: on the one-document run of the counterexample, the
single file written is at the input notebook path. -/
theorem c7_writes_only_notebooks_witness :
    strL "nb.ipynb" ∈ c7Docs.map Prod.fst := by
  have h : (strL "nb.ipynb",
      (⟨[⟨strL "markdown", [strL "./x/y.md\n"], []⟩], []⟩ : Notebook)) ∈
        main_file_writes c7Docs := by decide
  exact c7_writes_only_notebooks c7Docs _ _ h
